import Mathlib

/-!
Shallow embedding of the countryxchange refresh/store pipeline.

The definitions below are translated from the repository's Go sources:
`internal/countries/service.go` (the `Refresh` orchestration), the countries
model with `Validate` (`internal/countries/model.go`), and the store layer
(`UpsertCountry`, `GetAll`, `SaveLastRefreshed`).  Exchange rates and the
derived estimate are modelled as rationals; the two network fetches, the
random multiplier draws, and store-level upsert failures are injected as
explicit parameters so that every path of the code is a total function of
its inputs.
-/

namespace CountryXchange

/-- One decoded entry of the external country directory feed (`restCountry`
in service.go); the `currencies` array is kept as the list of its codes. -/
structure RestCountry where
  name : String
  capital : String
  region : String
  population : ℤ
  flag : String
  currencies : List String
  deriving DecidableEq, Repr

/-- The fetched exchange-rate map (`ratesResp.Rates`), a partial map from
currency code to rate. -/
abbrev Rates := String → Option ℚ

/-- A country record (`Country` in model.go); optional columns are `Option`s
and the timestamp is an abstract tick. -/
structure Country where
  id : ℤ
  name : String
  capital : Option String
  region : Option String
  population : ℤ
  currencyCode : Option String
  exchangeRate : Option ℚ
  estimatedGDP : Option ℚ
  flagURL : Option String
  lastRefreshedAt : Option ℕ
  deriving DecidableEq, Repr

/-- `Country.Validate` (model.go lines 46-63): `none` means valid, `some errs`
carries the field-to-reason map (as an association list, in the order the Go
code inserts the keys). -/
def Country.Validate (c : Country) : Option (List (String × String)) :=
  let errs :=
    (if c.name = "" then [("name", "is required")] else []) ++
    (if c.population ≤ 0 then [("population", "must be positive")] else []) ++
    (if c.currencyCode = none ∨ c.currencyCode = some "" then
      [("currency_code", "is required")] else [])
  if errs = [] then none else some errs

/-- One multiplier draw: Go's `r.Intn(1001) + 1000` (service.go line 131)
applied to one raw sample `s`, with `Intn 1001` modelled as `s % 1001`. -/
def multOf (s : ℕ) : ℕ := s % 1001 + 1000

/-- The GDP estimate computed at service.go lines 131-132:
population * multiplier / rate. -/
def estimate (population : ℤ) (mult : ℕ) (rate : ℚ) : ℚ :=
  (population : ℚ) * (mult : ℚ) / rate

/-- Lines 121-163 of service.go: derive currency code, exchange rate and
estimated GDP for one fetched record and assemble the `Country` value handed
to validation.  `mult` is the multiplier that the rate-found branch would
consume; `now` is the run timestamp. -/
def buildCountry (rates : Rates) (mult : ℕ) (now : ℕ) (rc : RestCountry) : Country :=
  let cre : Option String × Option ℚ × Option ℚ :=
    match rc.currencies with
    | [] => (none, none, some 0)
    | code :: _ =>
      if code = "" then (none, none, some 0)
      else
        match rates code with
        | some rate => (some code, some rate, some (estimate rc.population mult rate))
        | none => (some code, none, none)
  { id := 0
    name := rc.name
    capital := if rc.capital = "" then none else some rc.capital
    region := if rc.region = "" then none else some rc.region
    population := rc.population
    currencyCode := cre.1
    exchangeRate := cre.2.1
    estimatedGDP := cre.2.2
    flagURL := if rc.flag = "" then none else some rc.flag
    lastRefreshedAt := some now }

/-- Whether the derivation of `rc` consumes one random draw: exactly when the
branch at service.go lines 128-133 (usable currency code found in the rate
map) is taken. -/
def drawsMult (rates : Rates) (rc : RestCountry) : Bool :=
  match rc.currencies with
  | [] => false
  | code :: _ => if code = "" then false else (rates code).isSome

/-- The `ON DUPLICATE KEY UPDATE` arm of `UpsertCountry`: every mutable column
is overwritten from `c` while the row keeps its id and stored name. -/
def overwriteRow (r c : Country) : Country :=
  { c with id := r.id, name := r.name }

/-- `UpsertCountry` (store layer): insert a new row, or on a name conflict
overwrite the mutable columns of the matched row; new rows get the next
auto-increment id. -/
def UpsertCountry (rows : List Country) (c : Country) : List Country :=
  if rows.any (fun r => r.name == c.name) then
    rows.map (fun r => if r.name = c.name then overwriteRow r c else r)
  else rows ++ [{ c with id := (rows.length : ℤ) + 1 }]

/-- Error outcomes of `Refresh`: an `ExternalError` naming the failed source,
or any store/transaction error (surfaced as an internal failure). -/
inductive RefreshError where
  | external (api : String)
  | internal
  deriving DecidableEq, Repr

/-- `RefreshResult` (service.go): count of upserted records and the run
timestamp. -/
structure RefreshResult where
  total : ℕ
  lastRefreshed : ℕ
  deriving DecidableEq, Repr

/-- The persistent store: whether `EnsureTables` has run, the rows of the
`countries` table, and the metadata `last_refreshed_at` value. -/
structure Store where
  schemaReady : Bool
  rows : List Country
  meta : Option ℕ
  deriving DecidableEq, Repr

/-- The per-record loop of `Refresh` (service.go lines 114-180): skip records
with an empty name, derive and validate each remaining record, skip
validation failures, upsert the rest; a store-level upsert error (injected
through `storeErr`) aborts with an internal error.  `k` is the index of the
next random draw and `processed` the running upsert count. -/
def mergeLoop (storeErr : Country → Bool) (rates : Rates) (seeds : ℕ → ℕ) (now : ℕ) :
    List RestCountry → ℕ → ℕ → List Country → Except RefreshError (List Country × ℕ)
  | [], _, processed, rows => .ok (rows, processed)
  | rc :: rest, k, processed, rows =>
    if rc.name = "" then
      mergeLoop storeErr rates seeds now rest k processed rows
    else
      let c := buildCountry rates (multOf (seeds k)) now rc
      let k1 := if drawsMult rates rc then k + 1 else k
      match c.Validate with
      | some _ => mergeLoop storeErr rates seeds now rest k1 processed rows
      | none =>
        if storeErr c then .error .internal
        else mergeLoop storeErr rates seeds now rest k1 (processed + 1) (UpsertCountry rows c)

/-- `Refresh` (service.go lines 54-206) over injected fetch results and store
state.  A failed fetch aborts before any store interaction; otherwise the
schema is ensured, the merge loop runs inside one transaction, the metadata
timestamp is written and the transaction commits; a merge-phase store error
rolls the whole transaction back (the schema bootstrap, being DDL, is not
part of the transaction). -/
def Refresh (storeErr : Country → Bool) (dir : Except Unit (List RestCountry))
    (ratesE : Except Unit Rates) (seeds : ℕ → ℕ) (now : ℕ) (st : Store) :
    Except RefreshError RefreshResult × Store :=
  match dir with
  | .error _ => (.error (.external "restcountries"), st)
  | .ok rcs =>
    match ratesE with
    | .error _ => (.error (.external "exchangerates"), st)
    | .ok rates =>
      let st1 : Store := { st with schemaReady := true }
      match mergeLoop storeErr rates seeds now rcs 0 0 st1.rows with
      | .error e => (.error e, st1)
      | .ok (rows, processed) =>
        (.ok ⟨processed, now⟩, { schemaReady := true, rows := rows, meta := some now })

/-- SQL `LOWER`, modelled on the string's character sequence. -/
def lowerChars (s : String) : List Char := s.data.map Char.toLower

/-- Row predicate for the `LOWER(region) = LOWER(?)` filter of `GetAll`; a
NULL region never matches. -/
def matchesRegion (region : String) (c : Country) : Bool :=
  match c.region with
  | some r => lowerChars r == lowerChars region
  | none => false

/-- Row predicate for the `LOWER(currency_code) = LOWER(?)` filter of
`GetAll`. -/
def matchesCurrency (currency : String) (c : Country) : Bool :=
  match c.currencyCode with
  | some cc => lowerChars cc == lowerChars currency
  | none => false

/-- The WHERE clause of `GetAll`: each equality filter is added only when its
argument is non-empty, and the conditions are conjoined. -/
def applyFilters (region currency : String) (rows : List Country) : List Country :=
  let rows1 := if region = "" then rows else rows.filter (matchesRegion region)
  if currency = "" then rows1 else rows1.filter (matchesCurrency currency)

/-- Comparison on nullable estimates as `ORDER BY estimated_gdp ASC` sorts
them: NULL first, then by value. -/
def gdpAscLe (a b : Option ℚ) : Bool :=
  match a, b with
  | none, _ => true
  | some _, none => false
  | some x, some y => decide (x ≤ y)

/-- Row order produced by `ORDER BY estimated_gdp ASC`. -/
def gdpAscRel (a b : Country) : Prop := gdpAscLe a.estimatedGDP b.estimatedGDP = true

/-- Row order produced by `ORDER BY estimated_gdp DESC`: the reverse of the
ascending order, so NULL sorts last. -/
def gdpDescRel (a b : Country) : Prop := gdpAscLe b.estimatedGDP a.estimatedGDP = true

instance : DecidableRel gdpAscRel := fun a b => by unfold gdpAscRel; infer_instance

instance : DecidableRel gdpDescRel := fun a b => by unfold gdpDescRel; infer_instance

def gdpAscLe_total (a b : Option ℚ) : gdpAscLe a b = true ∨ gdpAscLe b a = true := by
  cases a <;> cases b <;> simp [gdpAscLe]
  exact le_total _ _

def gdpAscLe_trans {a b c : Option ℚ} (h1 : gdpAscLe a b = true)
    (h2 : gdpAscLe b c = true) : gdpAscLe a c = true := by
  cases a <;> cases b <;> cases c <;> simp_all [gdpAscLe]
  exact le_trans h1 h2

instance : IsTotal Country gdpAscRel := ⟨fun _ _ => gdpAscLe_total _ _⟩

instance : IsTrans Country gdpAscRel := ⟨fun _ _ _ => gdpAscLe_trans⟩

instance : IsTotal Country gdpDescRel := ⟨fun _ _ => (gdpAscLe_total _ _).symm⟩

instance : IsTrans Country gdpDescRel := ⟨fun _ _ _ h1 h2 => gdpAscLe_trans h2 h1⟩

/-- `GetAll` (store layer): apply the optional filters, then order by the
estimate when the sort token is recognized; any other token leaves the rows
in stored order. -/
def GetAll (rows : List Country) (region currency sort : String) : List Country :=
  let filtered := applyFilters region currency rows
  if sort = "gdp_desc" then List.insertionSort gdpDescRel filtered
  else if sort = "gdp_asc" then List.insertionSort gdpAscRel filtered
  else filtered

/-- Whether a fetched record passes the gate in front of `UpsertCountry` in
the merge loop: a non-empty name and a derived record that `Country.Validate`
accepts.  Validation never reads the estimate, so the multiplier used here is
irrelevant (see `validate_buildCountry_mult`). -/
def passesGate (rates : Rates) (now : ℕ) (rc : RestCountry) : Bool :=
  (rc.name != "") && (buildCountry rates 1000 now rc).Validate.isNone

/-- The structural requirements that `Country.Validate` enforces. -/
def validFields (c : Country) : Prop :=
  c.name ≠ "" ∧ 0 < c.population ∧ ∃ cc, c.currencyCode = some cc ∧ cc ≠ ""

/-- A stored row for the specification's filter/sort examples: region
"americas" (lower case, as stored) and the given estimate. -/
def exampleRow (i : ℤ) (nm : String) (est : ℚ) : Country :=
  { id := i, name := nm, capital := none, region := some "americas",
    population := 1, currencyCode := some "USD", exchangeRate := none,
    estimatedGDP := some est, flagURL := none, lastRefreshedAt := none }

/-- The spec's Wakanda record with the given population, carrying a currency
code quoted in the rate map so that it passes the validation gate in front of
the upsert. -/
def wakanda (p : ℤ) : RestCountry :=
  { name := "Wakanda", capital := "", region := "", population := p, flag := "",
    currencies := ["USD"] }

/-- A rate map quoting USD at rate 1. -/
def usdRates : Rates := fun c => if c = "USD" then some 1 else none

/-- First synchronization run of the upsert-by-name scenario: population 5
into an empty store. -/
def wakandaRun1 : Except RefreshError RefreshResult × Store :=
  Refresh (fun _ => false) (.ok [wakanda 5]) (.ok usdRates) (fun _ => 0) 1
    { schemaReady := false, rows := [], meta := none }

/-- Second synchronization run: population 9 over the store the first run
left behind. -/
def wakandaRun2 : Except RefreshError RefreshResult × Store :=
  Refresh (fun _ => false) (.ok [wakanda 9]) (.ok usdRates) (fun _ => 0) 2
    wakandaRun1.2

/-- An optional currency code escapes the `currency_code` check exactly when
it is present and non-empty. -/
theorem currency_present_iff (o : Option String) :
    ¬(o = none ∨ o = some "") ↔ ∃ s, o = some s ∧ s ≠ "" := by
  cases o with
  | none => simp
  | some a =>
    constructor
    · intro h
      exact ⟨a, rfl, fun ha => h (Or.inr (by rw [ha]))⟩
    · rintro ⟨s, hs, hne⟩ (h | h)
      · exact Option.noConfusion h
      · exact hne (by injection hs.symm.trans h)

/-- `Country.Validate` succeeds exactly on records satisfying `validFields`. -/
theorem validate_eq_none_iff (c : Country) : c.Validate = none ↔ validFields c := by
  unfold Country.Validate validFields
  by_cases h1 : c.name = "" <;> by_cases h2 : c.population ≤ 0 <;>
    by_cases h3 : c.currencyCode = none ∨ c.currencyCode = some "" <;>
      simp [h1, h2, h3, ← currency_present_iff, lt_iff_not_le]

/-- The verdict of validation does not depend on the multiplier used in the
derivation: validation never reads the estimate. -/
theorem validate_buildCountry_mult (rates : Rates) (m m' now : ℕ) (rc : RestCountry) :
    (buildCountry rates m now rc).Validate = (buildCountry rates m' now rc).Validate := by
  obtain ⟨name, cap, reg, pop, flag, curs⟩ := rc
  cases curs with
  | nil => rfl
  | cons code rest =>
    by_cases hc : code = ""
    · simp [buildCountry, hc]
    · cases hr : rates code <;> simp [buildCountry, Country.Validate, hc, hr]

theorem mergeLoop_nil {storeErr : Country → Bool} {rates : Rates} {seeds : ℕ → ℕ}
    {now k p : ℕ} {rows : List Country} :
    mergeLoop storeErr rates seeds now [] k p rows = .ok (rows, p) := rfl

theorem mergeLoop_cons_emptyName {storeErr : Country → Bool} {rates : Rates}
    {seeds : ℕ → ℕ} {now : ℕ} {rc : RestCountry} {rest : List RestCountry}
    {k p : ℕ} {rows : List Country} (h : rc.name = "") :
    mergeLoop storeErr rates seeds now (rc :: rest) k p rows =
      mergeLoop storeErr rates seeds now rest k p rows := by
  simp [mergeLoop, h]

theorem mergeLoop_cons_invalid {storeErr : Country → Bool} {rates : Rates}
    {seeds : ℕ → ℕ} {now : ℕ} {rc : RestCountry} {rest : List RestCountry}
    {k p : ℕ} {rows : List Country} {errs : List (String × String)}
    (h : ¬ rc.name = "")
    (hv : (buildCountry rates (multOf (seeds k)) now rc).Validate = some errs) :
    mergeLoop storeErr rates seeds now (rc :: rest) k p rows =
      mergeLoop storeErr rates seeds now rest
        (if drawsMult rates rc then k + 1 else k) p rows := by
  simp [mergeLoop, h, hv]

theorem mergeLoop_cons_valid_err {storeErr : Country → Bool} {rates : Rates}
    {seeds : ℕ → ℕ} {now : ℕ} {rc : RestCountry} {rest : List RestCountry}
    {k p : ℕ} {rows : List Country} (h : ¬ rc.name = "")
    (hv : (buildCountry rates (multOf (seeds k)) now rc).Validate = none)
    (hs : storeErr (buildCountry rates (multOf (seeds k)) now rc) = true) :
    mergeLoop storeErr rates seeds now (rc :: rest) k p rows = .error .internal := by
  simp [mergeLoop, h, hv, hs]

theorem mergeLoop_cons_valid_ok {storeErr : Country → Bool} {rates : Rates}
    {seeds : ℕ → ℕ} {now : ℕ} {rc : RestCountry} {rest : List RestCountry}
    {k p : ℕ} {rows : List Country} (h : ¬ rc.name = "")
    (hv : (buildCountry rates (multOf (seeds k)) now rc).Validate = none)
    (hs : storeErr (buildCountry rates (multOf (seeds k)) now rc) = false) :
    mergeLoop storeErr rates seeds now (rc :: rest) k p rows =
      mergeLoop storeErr rates seeds now rest
        (if drawsMult rates rc then k + 1 else k) (p + 1)
        (UpsertCountry rows (buildCountry rates (multOf (seeds k)) now rc)) := by
  simp [mergeLoop, h, hv, hs]

/-- The only error the merge loop itself can produce is the internal one. -/
theorem mergeLoop_error_internal {storeErr : Country → Bool} {rates : Rates}
    {seeds : ℕ → ℕ} {now : ℕ} :
    ∀ (rcs : List RestCountry) (k p : ℕ) (rows : List Country) (e : RefreshError),
      mergeLoop storeErr rates seeds now rcs k p rows = .error e → e = .internal := by
  intro rcs
  induction rcs with
  | nil =>
    intro k p rows e h
    exact absurd h (by simp [mergeLoop_nil])
  | cons rc rest ih =>
    intro k p rows e h
    by_cases hn : rc.name = ""
    · rw [mergeLoop_cons_emptyName hn] at h
      exact ih _ _ _ _ h
    · cases hv : (buildCountry rates (multOf (seeds k)) now rc).Validate with
      | some errs =>
        rw [mergeLoop_cons_invalid hn hv] at h
        exact ih _ _ _ _ h
      | none =>
        cases hs : storeErr (buildCountry rates (multOf (seeds k)) now rc) with
        | true =>
          rw [mergeLoop_cons_valid_err hn hv hs] at h
          injection h with h1
          exact h1.symm
        | false =>
          rw [mergeLoop_cons_valid_ok hn hv hs] at h
          exact ih _ _ _ _ h

/-- On success, the merge loop increments the processed counter exactly once
per record passing the name-and-validation gate. -/
theorem mergeLoop_ok_count {storeErr : Country → Bool} {rates : Rates}
    {seeds : ℕ → ℕ} {now : ℕ} :
    ∀ (rcs : List RestCountry) (k p : ℕ) (rows rows' : List Country) (p' : ℕ),
      mergeLoop storeErr rates seeds now rcs k p rows = .ok (rows', p') →
      p' = p + (rcs.filter (passesGate rates now)).length := by
  intro rcs
  induction rcs with
  | nil =>
    intro k p rows rows' p' h
    rw [mergeLoop_nil] at h
    injection h with h1
    injection h1 with h2 h3
    simp [h3]
  | cons rc rest ih =>
    intro k p rows rows' p' h
    by_cases hn : rc.name = ""
    · rw [mergeLoop_cons_emptyName hn] at h
      have hg : passesGate rates now rc = false := by
        simp [passesGate, hn]
      rw [List.filter_cons_of_neg (by simp [hg])]
      exact ih _ _ _ _ _ h
    · cases hv : (buildCountry rates (multOf (seeds k)) now rc).Validate with
      | some errs =>
        rw [mergeLoop_cons_invalid hn hv] at h
        have hg : passesGate rates now rc = false := by
          have := validate_buildCountry_mult rates 1000 (multOf (seeds k)) now rc
          simp [passesGate, hn, this, hv]
        rw [List.filter_cons_of_neg (by simp [hg])]
        exact ih _ _ _ _ _ h
      | none =>
        cases hs : storeErr (buildCountry rates (multOf (seeds k)) now rc) with
        | true =>
          rw [mergeLoop_cons_valid_err hn hv hs] at h
          exact absurd h (by simp)
        | false =>
          rw [mergeLoop_cons_valid_ok hn hv hs] at h
          have hg : passesGate rates now rc = true := by
            have := validate_buildCountry_mult rates 1000 (multOf (seeds k)) now rc
            simp [passesGate, hn, this, hv]
          rw [List.filter_cons_of_pos (by simp [hg])]
          have := ih _ _ _ _ _ h
          simp [this]
          omega

/-- A row present after an upsert of a `validFields` record is either an old
row or itself satisfies `validFields`. -/
theorem upsertCountry_mem {rows : List Country} {c r : Country}
    (hc : validFields c) (hr : r ∈ UpsertCountry rows c) : r ∈ rows ∨ validFields r := by
  unfold UpsertCountry at hr
  by_cases h : rows.any (fun r => r.name == c.name) = true
  · rw [if_pos h] at hr
    obtain ⟨r0, hr0, hmap⟩ := List.mem_map.mp hr
    by_cases h0 : r0.name = c.name
    · right
      rw [if_pos h0] at hmap
      subst hmap
      exact ⟨by simpa [overwriteRow, h0] using hc.1, hc.2.1, hc.2.2⟩
    · left
      rw [if_neg h0] at hmap
      exact hmap ▸ hr0
  · rw [if_neg h] at hr
    rcases List.mem_append.mp hr with h1 | h1
    · exact Or.inl h1
    · right
      have : r = { c with id := (rows.length : ℤ) + 1 } := List.mem_singleton.mp h1
      subst this
      exact ⟨hc.1, hc.2.1, hc.2.2⟩

/-- On success, every row the merge loop leaves behind is an old row or a
record that passed validation. -/
theorem mergeLoop_rows_sound {storeErr : Country → Bool} {rates : Rates}
    {seeds : ℕ → ℕ} {now : ℕ} :
    ∀ (rcs : List RestCountry) (k p : ℕ) (rows rows' : List Country) (p' : ℕ),
      mergeLoop storeErr rates seeds now rcs k p rows = .ok (rows', p') →
      ∀ r ∈ rows', r ∈ rows ∨ validFields r := by
  intro rcs
  induction rcs with
  | nil =>
    intro k p rows rows' p' h r hr
    rw [mergeLoop_nil] at h
    injection h with h1
    injection h1 with h2 h3
    exact Or.inl (h2 ▸ hr)
  | cons rc rest ih =>
    intro k p rows rows' p' h r hr
    by_cases hn : rc.name = ""
    · rw [mergeLoop_cons_emptyName hn] at h
      exact ih _ _ _ _ _ h r hr
    · cases hv : (buildCountry rates (multOf (seeds k)) now rc).Validate with
      | some errs =>
        rw [mergeLoop_cons_invalid hn hv] at h
        exact ih _ _ _ _ _ h r hr
      | none =>
        cases hs : storeErr (buildCountry rates (multOf (seeds k)) now rc) with
        | true =>
          rw [mergeLoop_cons_valid_err hn hv hs] at h
          exact absurd h (by simp)
        | false =>
          rw [mergeLoop_cons_valid_ok hn hv hs] at h
          rcases ih _ _ _ _ _ h r hr with h1 | h1
          · exact upsertCountry_mem ((validate_eq_none_iff _).mp hv) h1
          · exact Or.inr h1

/-- C1: for every fetched record with a non-empty name, the refresh
derivation follows the exact three-way policy: no currency entries gives
absent code, absent rate and estimate exactly 0; a code missing from the
rate map gives present code, absent rate and absent estimate; a code found
in the rate map gives that rate and an estimate computed from population
and the rate. -/
theorem refresh_derivation_policy (rates : Rates) (mult now : ℕ) (rc : RestCountry)
    (hname : rc.name ≠ "") :
    (rc.currencies = [] →
      (buildCountry rates mult now rc).currencyCode = none ∧
      (buildCountry rates mult now rc).exchangeRate = none ∧
      (buildCountry rates mult now rc).estimatedGDP = some 0) ∧
    (∀ code rest, rc.currencies = code :: rest → code ≠ "" → rates code = none →
      (buildCountry rates mult now rc).currencyCode = some code ∧
      (buildCountry rates mult now rc).exchangeRate = none ∧
      (buildCountry rates mult now rc).estimatedGDP = none) ∧
    (∀ code rest r, rc.currencies = code :: rest → code ≠ "" → rates code = some r →
      (buildCountry rates mult now rc).currencyCode = some code ∧
      (buildCountry rates mult now rc).exchangeRate = some r ∧
      (buildCountry rates mult now rc).estimatedGDP =
        some ((rc.population : ℚ) * (mult : ℚ) / r)) := by
  refine ⟨fun h => ?_, fun code rest h hc hr => ?_, fun code rest r h hc hr => ?_⟩
  · simp [buildCountry, h]
  · simp [buildCountry, h, hc, hr]
  · simp [buildCountry, h, hc, hr, estimate]

/-- Witness for C1 at a concrete record: currency "USD" quoted at rate 2
yields the computed estimate 750,000,000 for population 1,000,000 and
multiplier 1500. -/
theorem refresh_derivation_policy_witness :
    (buildCountry (fun c => if c = "USD" then some 2 else none) 1500 7
        ⟨"Atlantis", "", "", 1000000, "", ["USD"]⟩).estimatedGDP = some 750000000 := by
  have h := (refresh_derivation_policy (fun c => if c = "USD" then some 2 else none) 1500 7
      ⟨"Atlantis", "", "", 1000000, "", ["USD"]⟩ (by decide)).2.2 "USD" [] 2 rfl (by decide)
      (by simp)
  rw [h.2.2]
  norm_num

/-- C4: the estimate is population * multiplier / rate, with the multiplier
drawn from the uniform integer distribution on [1000, 2000] inclusive (every
draw lands in the interval and every value of the interval is reachable);
concretely, population 1,000,000 at rate 2 with multiplier 1500 gives
750,000,000. -/
theorem estimate_policy :
    (∀ s : ℕ, 1000 ≤ multOf s ∧ multOf s ≤ 2000) ∧
    (∀ m : ℕ, 1000 ≤ m → m ≤ 2000 → ∃ s, multOf s = m) ∧
    (∀ (pop : ℤ) (mult : ℕ) (rate : ℚ),
      estimate pop mult rate = (pop : ℚ) * (mult : ℚ) / rate) ∧
    (buildCountry (fun c => if c = "USD" then some 2 else none) (multOf 500) 7
        ⟨"Atlantis", "", "", 1000000, "", ["USD"]⟩).estimatedGDP = some 750000000 := by
  refine ⟨fun s => ?_, fun m h1 h2 => ⟨m - 1000, ?_⟩, fun _ _ _ => rfl, ?_⟩
  · have hs : s % 1001 < 1001 := Nat.mod_lt _ (by norm_num)
    unfold multOf
    omega
  · have hlt : m - 1000 < 1001 := by omega
    unfold multOf
    rw [Nat.mod_eq_of_lt hlt]
    omega
  · have h500 : multOf 500 = 1500 := by decide
    rw [h500]
    simp [buildCountry, estimate]
    norm_num

/-- Witness for C4: the sample 500 realizes the multiplier 1500. -/
theorem estimate_policy_witness : ∃ s, multOf s = 1500 :=
  estimate_policy.2.1 1500 (by decide) (by decide)

/-- C5: validation succeeds exactly when the name is non-empty, the
population is strictly positive and the currency code is present and
non-empty; otherwise the reported map holds one reason for each violated
field and no others. -/
theorem validate_spec (c : Country) :
    (c.Validate = none ↔
      (c.name ≠ "" ∧ 0 < c.population ∧ ∃ cc, c.currencyCode = some cc ∧ cc ≠ "")) ∧
    (∀ errs, c.Validate = some errs →
      ((errs.map Prod.fst).Nodup ∧
        ∀ f, (∃ m, (f, m) ∈ errs) ↔
          ((f = "name" ∧ c.name = "") ∨
           (f = "population" ∧ c.population ≤ 0) ∨
           (f = "currency_code" ∧ (c.currencyCode = none ∨ c.currencyCode = some ""))))) := by
  constructor
  · rw [validate_eq_none_iff]
    rfl
  · intro errs herrs
    unfold Country.Validate at herrs
    by_cases h1 : c.name = "" <;> by_cases h2 : c.population ≤ 0 <;>
      by_cases h3 : c.currencyCode = none ∨ c.currencyCode = some "" <;>
        simp [h1, h2, h3] at herrs
    all_goals
      subst herrs
      refine ⟨by decide, fun f => ?_⟩
      simp [h1, h2, h3, exists_or, exists_and_left, exists_eq]

/-- Witness for C5: a record violating all three requirements yields exactly
the three field reasons. -/
theorem validate_spec_witness :
    (([("name", "is required"), ("population", "must be positive"),
        ("currency_code", "is required")] : List (String × String)).map Prod.fst).Nodup :=
  ((validate_spec
      { id := 0, name := "", capital := none, region := none, population := 0,
        currencyCode := none, exchangeRate := none, estimatedGDP := none,
        flagURL := none, lastRefreshedAt := none }).2 _ (by decide)).1

/-- C6: a derived record never carries a non-zero estimate without a currency
code (a non-zero estimate comes with a currency code and an exchange rate it
was computed from), and an absent currency code forces the estimate to be
exactly the zero fallback. -/
theorem derived_estimate_invariant (rates : Rates) (mult now : ℕ) (rc : RestCountry) :
    (∀ q : ℚ, (buildCountry rates mult now rc).estimatedGDP = some q → q ≠ 0 →
      ∃ code rate, (buildCountry rates mult now rc).currencyCode = some code ∧
        (buildCountry rates mult now rc).exchangeRate = some rate ∧
        q = (rc.population : ℚ) * (mult : ℚ) / rate) ∧
    ((buildCountry rates mult now rc).currencyCode = none →
      (buildCountry rates mult now rc).estimatedGDP = some 0) := by
  obtain ⟨name, cap, reg, pop, flag, curs⟩ := rc
  cases curs with
  | nil =>
    refine ⟨fun q hq hne => absurd ?_ hne, fun _ => by simp [buildCountry]⟩
    have : some (0 : ℚ) = some q := by simpa [buildCountry] using hq
    injection this with h
    exact h.symm
  | cons code rest =>
    by_cases hc : code = ""
    · refine ⟨fun q hq hne => absurd ?_ hne, fun _ => by simp [buildCountry, hc]⟩
      have : some (0 : ℚ) = some q := by simpa [buildCountry, hc] using hq
      injection this with h
      exact h.symm
    · cases hr : rates code with
      | none =>
        refine ⟨fun q hq _ => absurd hq (by simp [buildCountry, hc, hr]), fun hcc => ?_⟩
        exact absurd hcc (by simp [buildCountry, hc, hr])
      | some r =>
        refine ⟨fun q hq _ => ⟨code, r, by simp [buildCountry, hc, hr], ?_⟩,
          fun hcc => absurd hcc (by simp [buildCountry, hc, hr])⟩
        refine ⟨by simp [buildCountry, hc, hr], ?_⟩
        have : some (estimate pop mult r) = some q := by simpa [buildCountry, hc, hr] using hq
        injection this with h
        rw [← h]
        rfl

/-- Witness for C6: with no usable currency entry the derived estimate is the
zero fallback. -/
theorem derived_estimate_invariant_witness :
    (buildCountry (fun _ => none) 1000 7
        ⟨"Atlantis", "", "", 5, "", []⟩).estimatedGDP = some 0 :=
  (derived_estimate_invariant (fun _ => none) 1000 7
      ⟨"Atlantis", "", "", 5, "", []⟩).2 (by decide)

/-- C2: if either external fetch fails, `Refresh` returns the
source-unavailable error naming the failed source and the store is returned
completely untouched: no schema bootstrap has run and no transaction was
opened, so rows and metadata are exactly the pre-call ones. -/
theorem refresh_fetch_failure (storeErr : Country → Bool) (seeds : ℕ → ℕ) (now : ℕ)
    (st : Store) :
    (∀ ratesE, Refresh storeErr (.error ()) ratesE seeds now st =
      (.error (.external "restcountries"), st)) ∧
    (∀ rcs, Refresh storeErr (.ok rcs) (.error ()) seeds now st =
      (.error (.external "exchangerates"), st)) :=
  ⟨fun _ => rfl, fun _ => rfl⟩

/-- C3: a record failing validation is skipped without aborting the run and
without touching the rows already upserted; the merge loop can only fail with
the internal error (never a validation error); a store-level upsert error on
a validated record aborts immediately; and any merge-phase failure of
`Refresh` is surfaced as the internal error with every upsert of the run
rolled back. -/
theorem merge_error_policy (storeErr : Country → Bool) (rates : Rates) (seeds : ℕ → ℕ)
    (now : ℕ) :
    (∀ (rc : RestCountry) (rest : List RestCountry) (k p : ℕ) (rows : List Country),
      rc.name ≠ "" →
      (buildCountry rates (multOf (seeds k)) now rc).Validate ≠ none →
      mergeLoop storeErr rates seeds now (rc :: rest) k p rows =
        mergeLoop storeErr rates seeds now rest
          (if drawsMult rates rc then k + 1 else k) p rows) ∧
    (∀ (rcs : List RestCountry) (k p : ℕ) (rows : List Country) (e : RefreshError),
      mergeLoop storeErr rates seeds now rcs k p rows = .error e → e = .internal) ∧
    (∀ (rc : RestCountry) (rest : List RestCountry) (k p : ℕ) (rows : List Country),
      rc.name ≠ "" →
      (buildCountry rates (multOf (seeds k)) now rc).Validate = none →
      storeErr (buildCountry rates (multOf (seeds k)) now rc) = true →
      mergeLoop storeErr rates seeds now (rc :: rest) k p rows = .error .internal) ∧
    (∀ (rcs : List RestCountry) (st : Store) (e : RefreshError) (st' : Store),
      Refresh storeErr (.ok rcs) (.ok rates) seeds now st = (.error e, st') →
      e = .internal ∧ st'.rows = st.rows ∧ st'.meta = st.meta) := by
  refine ⟨?_, ?_, ?_, ?_⟩
  · intro rc rest k p rows hn hv
    obtain ⟨errs, herrs⟩ := Option.ne_none_iff_exists'.mp hv
    exact mergeLoop_cons_invalid hn herrs
  · intro rcs k p rows e h
    exact mergeLoop_error_internal rcs k p rows e h
  · intro rc rest k p rows hn hv hs
    exact mergeLoop_cons_valid_err hn hv hs
  · intro rcs st e st' h
    simp only [Refresh] at h
    cases hm : mergeLoop storeErr rates seeds now rcs 0 0 st.rows with
    | error e0 =>
      rw [hm] at h
      injection h with h1 h2
      injection h1 with h3
      subst h3
      subst h2
      exact ⟨mergeLoop_error_internal rcs 0 0 st.rows _ hm, rfl, rfl⟩
    | ok pr =>
      obtain ⟨rows1, p1⟩ := pr
      rw [hm] at h
      injection h with h1 h2
      exact absurd h1 (by simp)

/-- Witness for C3 at a concrete input: a record that fails validation
(population 0, no currency) is skipped and the loop continues. -/
theorem merge_error_policy_witness :
    mergeLoop (fun _ => false) (fun _ => none) (fun _ => 0) 7
        [⟨"Atlantis", "", "", 0, "", []⟩] 0 0 [] =
      mergeLoop (fun _ => false) (fun _ => none) (fun _ => 0) 7 []
        (if drawsMult (fun _ => none) ⟨"Atlantis", "", "", 0, "", []⟩ then 0 + 1 else 0)
        0 [] :=
  (merge_error_policy (fun _ => false) (fun _ => none) (fun _ => 0) 7).1
    ⟨"Atlantis", "", "", 0, "", []⟩ [] 0 0 [] (by decide) (by decide)

/-- C7: a successful refresh reports exactly the number of fetched records
that passed the validation gate (the number upserted in that run) and the
run's commit timestamp, which is also the timestamp written to metadata. -/
theorem refresh_success_report (storeErr : Country → Bool) (rcs : List RestCountry)
    (rates : Rates) (seeds : ℕ → ℕ) (now : ℕ) (st : Store) (res : RefreshResult)
    (st' : Store)
    (h : Refresh storeErr (.ok rcs) (.ok rates) seeds now st = (.ok res, st')) :
    res.total = (rcs.filter (passesGate rates now)).length ∧
    res.lastRefreshed = now ∧ st'.meta = some now := by
  simp only [Refresh] at h
  cases hm : mergeLoop storeErr rates seeds now rcs 0 0 st.rows with
  | error e0 =>
    rw [hm] at h
    injection h with h1 h2
    exact absurd h1 (by simp)
  | ok pr =>
    obtain ⟨rows1, p1⟩ := pr
    rw [hm] at h
    injection h with h1 h2
    injection h1 with h3
    subst h3
    subst h2
    have := mergeLoop_ok_count rcs 0 0 st.rows rows1 p1 hm
    exact ⟨by simpa using this, rfl, rfl⟩

/-- Witness for C7: a concrete run upserting the single valid Wakanda record
reports a count of 1 and the run timestamp. -/
theorem refresh_success_report_witness :
    (1 : ℕ) = (([⟨"Wakanda", "", "", 5, "", ["USD"]⟩] : List RestCountry).filter
        (passesGate (fun c => if c = "USD" then some 1 else none) 1)).length ∧
    (1 : ℕ) = 1 ∧
    (Refresh (fun _ => false) (.ok [⟨"Wakanda", "", "", 5, "", ["USD"]⟩])
        (.ok (fun c => if c = "USD" then some 1 else none)) (fun _ => 0) 1
        { schemaReady := false, rows := [], meta := none }).2.meta = some 1 :=
  refresh_success_report (fun _ => false) [⟨"Wakanda", "", "", 5, "", ["USD"]⟩]
    (fun c => if c = "USD" then some 1 else none) (fun _ => 0) 1
    { schemaReady := false, rows := [], meta := none } ⟨1, 1⟩
    (Refresh (fun _ => false) (.ok [⟨"Wakanda", "", "", 5, "", ["USD"]⟩])
        (.ok (fun c => if c = "USD" then some 1 else none)) (fun _ => 0) 1
        { schemaReady := false, rows := [], meta := none }).2 (by rfl)

/-- C10: every row a refresh run leaves in the store is either a pre-existing
row or a record that passed the validation gate (non-empty name, positive
population, present non-empty currency code — so no zero-fallback record is
ever persisted by a refresh), and the operation itself only ever fails with a
source or internal error, never a validation error. -/
theorem refresh_upsert_gate (storeErr : Country → Bool)
    (dir : Except Unit (List RestCountry)) (ratesE : Except Unit Rates)
    (seeds : ℕ → ℕ) (now : ℕ) (st : Store) (out : Except RefreshError RefreshResult)
    (st' : Store) (h : Refresh storeErr dir ratesE seeds now st = (out, st')) :
    (∀ r ∈ st'.rows, r ∈ st.rows ∨ validFields r) ∧
    (∀ e, out = .error e →
      e = .external "restcountries" ∨ e = .external "exchangerates" ∨ e = .internal) := by
  cases dir with
  | error u =>
    simp only [Refresh] at h
    injection h with h1 h2
    subst h2
    refine ⟨fun r hr => Or.inl hr, fun e he => ?_⟩
    rw [← h1] at he
    injection he with he1
    exact Or.inl he1.symm
  | ok rcs =>
    cases ratesE with
    | error u =>
      simp only [Refresh] at h
      injection h with h1 h2
      subst h2
      refine ⟨fun r hr => Or.inl hr, fun e he => ?_⟩
      rw [← h1] at he
      injection he with he1
      exact Or.inr (Or.inl he1.symm)
    | ok rates =>
      simp only [Refresh] at h
      cases hm : mergeLoop storeErr rates seeds now rcs 0 0 st.rows with
      | error e0 =>
        rw [hm] at h
        injection h with h1 h2
        subst h2
        refine ⟨fun r hr => Or.inl hr, fun e he => ?_⟩
        rw [← h1] at he
        injection he with he1
        exact Or.inr (Or.inr (he1 ▸ mergeLoop_error_internal rcs 0 0 st.rows e0 hm))
      | ok pr =>
        obtain ⟨rows1, p1⟩ := pr
        rw [hm] at h
        injection h with h1 h2
        subst h2
        refine ⟨fun r hr => mergeLoop_rows_sound rcs 0 0 st.rows rows1 p1 hm r hr,
          fun e he => ?_⟩
        rw [← h1] at he
        exact absurd he (by simp)

/-- Witness for C10: on a failed directory fetch the operation's error is the
source error for the country directory. -/
theorem refresh_upsert_gate_witness :
    RefreshError.external "restcountries" = RefreshError.external "restcountries" ∨
    RefreshError.external "restcountries" = RefreshError.external "exchangerates" ∨
    RefreshError.external "restcountries" = RefreshError.internal :=
  (refresh_upsert_gate (fun _ => false) (.error ()) (.ok (fun _ => none)) (fun _ => 0) 0
      { schemaReady := false, rows := [], meta := none }
      (.error (.external "restcountries")) { schemaReady := false, rows := [], meta := none }
      rfl).2 (.external "restcountries") rfl

/-- Membership in the filtered rows: each filter applies only when its
argument is non-empty and matches case-insensitively. -/
theorem mem_applyFilters (rows : List Country) (region currency : String) (c : Country) :
    c ∈ applyFilters region currency rows ↔
      (c ∈ rows ∧ (region = "" ∨ matchesRegion region c = true) ∧
        (currency = "" ∨ matchesCurrency currency c = true)) := by
  unfold applyFilters
  by_cases h1 : region = "" <;> by_cases h2 : currency = "" <;>
    simp [h1, h2, List.mem_filter] <;> tauto

/-- C8: the region and currency filters of the listing query are
case-insensitive equality matches applied only when provided (no filter means
no restriction), `gdp_desc` orders by estimated value descending, `gdp_asc`
ascending, any other sort token leaves the stored order (and is not an
error); concretely, stored estimates 10, 30, 20 come back as 30, 20, 10
under `gdp_desc`, and a row stored with region "americas" matches a query
for "AMERICAS". -/
theorem getAll_spec :
    (∀ (rows : List Country) (region currency s : String),
      s ≠ "gdp_desc" → s ≠ "gdp_asc" →
      GetAll rows region currency s = applyFilters region currency rows) ∧
    (∀ (rows : List Country) (s : String), s ≠ "gdp_desc" → s ≠ "gdp_asc" →
      GetAll rows "" "" s = rows) ∧
    (∀ (rows : List Country) (region currency s : String) (c : Country),
      c ∈ GetAll rows region currency s ↔
        (c ∈ rows ∧ (region = "" ∨ matchesRegion region c = true) ∧
          (currency = "" ∨ matchesCurrency currency c = true))) ∧
    (∀ (rows : List Country) (region currency : String),
      List.Sorted gdpDescRel (GetAll rows region currency "gdp_desc") ∧
      List.Sorted gdpAscRel (GetAll rows region currency "gdp_asc")) ∧
    (GetAll [exampleRow 1 "A" 10, exampleRow 2 "B" 30, exampleRow 3 "C" 20]
        "" "" "gdp_desc" =
      [exampleRow 2 "B" 30, exampleRow 3 "C" 20, exampleRow 1 "A" 10]) ∧
    (GetAll [exampleRow 1 "A" 10] "AMERICAS" "" "" = [exampleRow 1 "A" 10]) := by
  refine ⟨?_, ?_, ?_, ?_, ?_, ?_⟩
  · intro rows region currency s hs1 hs2
    simp [GetAll, hs1, hs2]
  · intro rows s hs1 hs2
    simp [GetAll, hs1, hs2, applyFilters]
  · intro rows region currency s c
    have hperm : c ∈ GetAll rows region currency s ↔
        c ∈ applyFilters region currency rows := by
      unfold GetAll
      by_cases hd : s = "gdp_desc"
      · simp only [hd, if_pos rfl]
        exact (List.perm_insertionSort gdpDescRel _).mem_iff
      · by_cases ha : s = "gdp_asc"
        · simp only [hd, ha, if_neg, if_pos rfl, ite_false, ite_true, reduceIte]
          rw [if_neg (by decide)]
          exact (List.perm_insertionSort gdpAscRel _).mem_iff
        · simp [hd, ha]
    rw [hperm, mem_applyFilters]
  · intro rows region currency
    constructor
    · rw [show GetAll rows region currency "gdp_desc" =
          List.insertionSort gdpDescRel (applyFilters region currency rows) from rfl]
      exact List.sorted_insertionSort _ _
    · rw [show GetAll rows region currency "gdp_asc" =
          List.insertionSort gdpAscRel (applyFilters region currency rows) from rfl]
      exact List.sorted_insertionSort _ _
  · decide
  · decide

/-- Witness for C8: an unrecognized sort token is not an error, it returns
the filtered rows unchanged. -/
theorem getAll_spec_witness :
    GetAll [] "x" "y" "unknown" = applyFilters "x" "y" [] :=
  getAll_spec.1 [] "x" "y" "unknown" (by decide) (by decide)

/-- C9: `UpsertCountry` overwrites the mutable columns of the row matched by
name instead of inserting a duplicate, so synchronizing a Wakanda record with
population 5 and then one with population 9 in two separate refresh runs
leaves exactly one stored row for that name, with population 9. -/
theorem upsert_by_name_spec :
    (∀ (rows : List Country) (c : Country),
      rows.any (fun r => r.name == c.name) = true →
      ((UpsertCountry rows c).length = rows.length ∧
        ∀ r ∈ rows, r.name = c.name → overwriteRow r c ∈ UpsertCountry rows c)) ∧
    (wakandaRun1.2.rows.map (fun r => (r.name, r.population)) = [("Wakanda", 5)]) ∧
    (wakandaRun2.2.rows.map (fun r => (r.name, r.population)) = [("Wakanda", 9)]) ∧
    (wakandaRun2.2.rows.length = 1) := by
  refine ⟨?_, by decide, by decide, by decide⟩
  intro rows c h
  unfold UpsertCountry
  rw [if_pos h]
  refine ⟨by simp, fun r hr hname => ?_⟩
  have hmem := List.mem_map_of_mem
    (fun r => if r.name = c.name then overwriteRow r c else r) hr
  simpa [hname] using hmem

/-- Witness for C9: upserting a second Wakanda row into a store already
holding one leaves a single row. -/
theorem upsert_by_name_spec_witness :
    (UpsertCountry
      [{ id := 1, name := "Wakanda", capital := none, region := none,
         population := 5, currencyCode := some "USD", exchangeRate := some 1,
         estimatedGDP := some 5000, flagURL := none, lastRefreshedAt := some 1 }]
      { id := 0, name := "Wakanda", capital := none, region := none,
        population := 9, currencyCode := some "USD", exchangeRate := some 1,
        estimatedGDP := some 9000, flagURL := none, lastRefreshedAt := some 2 }).length =
      1 :=
  ((upsert_by_name_spec.1 _ _ (by decide)).1).trans (by decide)

end CountryXchange
